import Mathlib

/-!
Shallow embedding of the campaign-record synchronizer (`syncCampaigns` in
`syncNotionToRedis.ts`) and of the file-kind classifier (`inferKind` in
`utils/notion.ts`).  JavaScript strings are modelled as Lean `String`s,
`undefined`/`null` as `Option.none`, and the JS truthiness tests that the
source performs on optional strings (`!x`, `x || y`, `x ?? y`) are modelled
explicitly.  Every definition is translated from the TypeScript source;
definitions whose names carry a `spec` marker restate sentences of the
specification for comparison with the source-derived definitions.
-/

namespace Sync

/-- Truthiness of an optional JS string: `undefined`/`null` and `""` are falsy. -/
def truthyS (o : Option String) : Bool :=
  match o with
  | none => false
  | some s => !(s == "")

/-- JS `a || b` on optional strings: keep `a` when it is truthy, else `b`. -/
def jsOrOpt (a b : Option String) : Option String :=
  if truthyS a then a else b

/-- JS `a || b` where `b` is a plain string (source: `file.name || url`). -/
def jsOrStr (a : Option String) (b : String) : String :=
  match a with
  | none => b
  | some s => if s == "" then b else s

/-- File kinds produced by `inferKind` (source type `FileKind`). -/
inductive FileKind where
  | image
  | video
  | other
deriving DecidableEq, Repr

/-- Result object of `inferKind`: `{ kind, ext? }`. -/
structure KindMeta where
  kind : FileKind
  ext : Option String
deriving DecidableEq, Repr

/-- Character class `[a-z0-9]` under the regex flag `i`. -/
def isAlnumChar (c : Char) : Bool :=
  (('a' ≤ c) && (c ≤ 'z')) || (('A' ≤ c) && (c ≤ 'Z')) || (('0' ≤ c) && (c ≤ '9'))

/-- Lowercasing of a string (source: `String.prototype.toLowerCase`, ASCII part). -/
def lowerStr (s : String) : String :=
  String.mk (s.data.map Char.toLower)

/-- The character following the captured run must be end-of-input, `?` or `#`
(regex tail `(?:$|\?|#)`). -/
def termCharOk (rest : List Char) : Bool :=
  match rest with
  | [] => true
  | c :: _ => (c == '?') || (c == '#')

/-- The extension regex `\.([a-z0-9]+)(?:$|\?|#)` as executed by `exec`:
scanning left to right, the match at a position requires a dot, then the
maximal alphanumeric run, then a valid terminator; `exec` returns the
leftmost such match. -/
def findExt : List Char → Option (List Char)
  | [] => none
  | c :: cs =>
    if c == '.' && !((cs.takeWhile isAlnumChar).isEmpty)
        && termCharOk (cs.dropWhile isAlnumChar) then
      some (cs.takeWhile isAlnumChar)
    else findExt cs

/-- All matching positions of the extension regex, in scanning order (used to
state which match `exec` picks: the head of this list). -/
def extRuns : List Char → List (List Char)
  | [] => []
  | c :: cs =>
    (if c == '.' && !((cs.takeWhile isAlnumChar).isEmpty)
        && termCharOk (cs.dropWhile isAlnumChar) then
      [cs.takeWhile isAlnumChar]
    else []) ++ extRuns cs

/-- Extension list `img` from `inferKind`. -/
def imgExts : List String := ["jpg", "jpeg", "png", "gif", "webp", "avif", "svg"]

/-- Extension list `vid` from `inferKind`. -/
def vidExts : List String := ["mp4", "webm", "ogg", "mov", "m4v"]

/-- Lowercase a captured run and pack it as the `ext` string. -/
def runLower (run : List Char) : String :=
  String.mk (run.map Char.toLower)

/-- `inferKind` from `utils/notion.ts`: extract the extension with the regex,
lowercase it, and classify it against the image and video extension lists. -/
def inferKind (nameOrUrl : String) : KindMeta :=
  match findExt nameOrUrl.data with
  | none => ⟨FileKind.other, none⟩
  | some run =>
    let ext := runLower run
    if imgExts.contains ext then ⟨FileKind.image, some ext⟩
    else if vidExts.contains ext then ⟨FileKind.video, some ext⟩
    else ⟨FileKind.other, some ext⟩

/-- A Notion files-property entry: either an internally hosted file
(`type: 'file'`, with optional `file.url` and `file.expiry_time`) or an
external link (`type: 'external'`, with optional `external.url`). -/
inductive NFile where
  | internalFile (name : Option String) (url : Option String) (expiryTime : Option String)
  | externalFile (name : Option String) (url : Option String)
deriving DecidableEq, Repr

/-- A typed Notion property value (union from `notionTypes`). -/
inductive NProp where
  | url (u : Option String)
  | richText (runs : List (Option String))
  | title (runs : List (Option String))
  | checkbox (b : Option Bool)
  | select (name : Option String)
  | files (fs : List NFile)
deriving DecidableEq, Repr

/-- A Notion page as consumed by `syncCampaigns`: id, optional icon emoji,
optional cover external url, and the property map. -/
structure NPage where
  id : String
  iconEmoji : Option String
  coverExternalUrl : Option String
  props : List (String × NProp)
deriving DecidableEq, Repr

/-- Property lookup `props.Name` (JS object access; absent key is `undefined`). -/
def getProp (pg : NPage) (name : String) : Option NProp :=
  pg.props.lookup name

/-- `(p as NotionRichTextProperty | undefined)?.rich_text?.[0]?.plain_text`. -/
def richTextFirst : Option NProp → Option String
  | some (NProp.richText rs) => rs.head?.bind id
  | _ => none

/-- `(p as NotionTitleProperty | undefined)?.title?.[0]?.plain_text`. -/
def titleFirst : Option NProp → Option String
  | some (NProp.title rs) => rs.head?.bind id
  | _ => none

/-- `(p as NotionUrlProperty | undefined)?.url ?? undefined`. -/
def urlOf : Option NProp → Option String
  | some (NProp.url u) => u
  | _ => none

/-- `(p as NotionSelectProperty | undefined)?.select?.name ?? undefined`. -/
def selectNameOf : Option NProp → Option String
  | some (NProp.select n) => n
  | _ => none

/-- Source line 72: raw slug text, the first rich-text run of `props.Slug`. -/
def rawSlug (pg : NPage) : Option String :=
  richTextFirst (getProp pg "Slug")

/-- Source line 73: `rawSlug?.startsWith('/') ? rawSlug.substring(1) : rawSlug`. -/
def stripLeadingSlash (s : String) : String :=
  match s.data with
  | [] => s
  | c :: cs => if c == '/' then String.mk cs else s

/-- The derived slug of a page (`undefined` stays `undefined`). -/
def slugOf (pg : NPage) : Option String :=
  (rawSlug pg).map stripLeadingSlash

/-- Source line 74: destination, first rich-text run of `props.Destination`. -/
def destinationOf (pg : NPage) : Option String :=
  richTextFirst (getProp pg "Destination")

/-- Source line 76: `titleRich`, first run of a rich-text-typed `Title`. -/
def titleRich (pg : NPage) : Option String :=
  richTextFirst (getProp pg "Title")

/-- Source line 77: `titleRich ?? (props.Title as NotionTitleProperty)?.title?.[0]?.plain_text`. -/
def titleFromTitle (pg : NPage) : Option String :=
  (titleRich pg) <|> titleFirst (getProp pg "Title")

/-- Source line 78: `title = titleFromTitle || slug` (JS `||`: empty string falls back). -/
def titleResolved (pg : NPage) : Option String :=
  jsOrOpt (titleFromTitle pg) (slugOf pg)

/-- Source line 79. -/
def descriptionOf (pg : NPage) : Option String :=
  richTextFirst (getProp pg "Description")

/-- Source line 80. -/
def detailsOf (pg : NPage) : Option String :=
  richTextFirst (getProp pg "Details")

/-- Source line 106: `(props.Category as NotionSelectProperty)?.select?.name ?? undefined`. -/
def categoryOf (pg : NPage) : Option String :=
  selectNameOf (getProp pg "Category")

/-- Source lines 97-103: `Link Tree Enabled` from a checkbox or a select. -/
def linkTreeEnabled (pg : NPage) : Bool :=
  match getProp pg "Link Tree Enabled" with
  | some (NProp.checkbox b) => b.getD false
  | some (NProp.select n) =>
    let nm := lowerStr (n.getD "")
    (nm == "true") || (nm == "yes") || (nm == "enabled")
  | _ => false

/-- Source lines 107-110: `pinned` is true when the checkbox is true or the
lower-cased select name equals `"true"`. -/
def pinned (pg : NPage) : Bool :=
  (match getProp pg "Pinned" with
   | some (NProp.checkbox b) => b.getD false
   | _ => false)
  ||
  (match getProp pg "Pinned" with
   | some (NProp.select n) => lowerStr (n.getD "") == "true"
   | _ => false)

/-- An entry of the consolidated files list (the objects built at source
lines 121-137 and 141-157). -/
structure OutFile where
  name : String
  url : String
  kind : FileKind
  ext : Option String
  expiry : Option String
deriving DecidableEq, Repr

/-- Mapping of one source file entry in the primary list (source lines 122-136):
resolve the url per variant, classify with `inferKind (name || url)`, carry
the expiry time for internally hosted files. -/
def mapSourceFile : NFile → OutFile
  | NFile.internalFile n u e =>
    let url := u.getD ""
    let meta := inferKind (jsOrStr n url)
    ⟨n.getD url, url, meta.kind, meta.ext, e⟩
  | NFile.externalFile n u =>
    let url := u.getD ""
    let meta := inferKind (jsOrStr n url)
    ⟨n.getD url, url, meta.kind, meta.ext, none⟩

/-- Mapping of one entry of the `video` files property (source lines 142-156):
like `mapSourceFile` but `kind` is forced to `video`. -/
def mapVideoFile : NFile → OutFile
  | NFile.internalFile n u e =>
    let url := u.getD ""
    let meta := inferKind (jsOrStr n url)
    ⟨n.getD url, url, FileKind.video, meta.ext, e⟩
  | NFile.externalFile n u =>
    let url := u.getD ""
    let meta := inferKind (jsOrStr n url)
    ⟨n.getD url, url, FileKind.video, meta.ext, none⟩

/-- Source lines 115-118: `props.Media ?? props.Files ?? props.Image ?? props.File`
(`??` falls through only on an absent property, not on a wrongly typed one). -/
def filesPropOf (pg : NPage) : Option NProp :=
  getProp pg "Media" <|> getProp pg "Files" <|> getProp pg "Image" <|> getProp pg "File"

/-- Source lines 120-138: the primary files list, only when the selected
property is typed `files`. -/
def primaryFiles (pg : NPage) : Option (List OutFile) :=
  match filesPropOf pg with
  | some (NProp.files fs) => some (fs.map mapSourceFile)
  | _ => none

/-- Source lines 140-157: entries of the property literally named `video`. -/
def videoExtraFiles (pg : NPage) : Option (List OutFile) :=
  match getProp pg "video" with
  | some (NProp.files fs) => some (fs.map mapVideoFile)
  | _ => none

/-- Source line 158: `files = [...(files ?? []), ...extra]`, executed only when
the `video` property is typed `files`. -/
def filesResolved (pg : NPage) : Option (List OutFile) :=
  match videoExtraFiles pg with
  | none => primaryFiles pg
  | some ex => some ((primaryFiles pg).getD [] ++ ex)

/-- Source lines 84-85: `props.Image ?? props.Thumbnail`. -/
def imagePropOf (pg : NPage) : Option NProp :=
  getProp pg "Image" <|> getProp pg "Thumbnail"

/-- The `find` predicate of source line 90: the entry has a truthy url in its
own variant. -/
def fileLinkTruthy : NFile → Bool
  | NFile.internalFile _ u _ => truthyS u
  | NFile.externalFile _ u => truthyS u

/-- Source line 92: resolve the found entry's url (`'file' in f` first, then
`'external' in f`). -/
def fileLinkOf : NFile → Option String
  | NFile.internalFile _ u _ => u
  | NFile.externalFile _ u => u

/-- Source lines 87-93: the image url taken from the `Image`/`Thumbnail`
property itself, according to its type. -/
def imageFromProp (p : Option NProp) : Option String :=
  match p with
  | some (NProp.url u) => u
  | some (NProp.richText rs) => rs.head?.bind id
  | some (NProp.files fs) => (fs.find? fileLinkTruthy).bind fileLinkOf
  | _ => none

/-- Case-insensitive test of an entry's `ext` against the image list
(source line 163: `(f.ext ?? '').match(/^(jpg|jpeg|png|gif|webp|avif|svg)$/i)`). -/
def isImageExtCI (e : Option String) : Bool :=
  imgExts.contains (lowerStr (e.getD ""))

/-- Case-insensitive test against the video list (source line 167). -/
def isVideoExtCI (e : Option String) : Bool :=
  vidExts.contains (lowerStr (e.getD ""))

/-- Source line 163: `files.find(kind image) || files.find(ext matches image)`. -/
def firstImageEntry (l : List OutFile) : Option OutFile :=
  (l.find? (fun f => f.kind == FileKind.image)) <|> (l.find? (fun f => isImageExtCI f.ext))

/-- Source line 167: `files.find(kind video) || files.find(ext matches video)`. -/
def firstVideoEntry (l : List OutFile) : Option OutFile :=
  (l.find? (fun f => f.kind == FileKind.video)) <|> (l.find? (fun f => isVideoExtCI f.ext))

/-- JS truthiness of `files && files.length` (source lines 162 and 166). -/
def filesNonEmptyTruthy (fo : Option (List OutFile)) : Bool :=
  match fo with
  | none => false
  | some l => !(l.isEmpty)

/-- Source lines 84-94 and 162-165: the fully resolved image url, including
the cover fallback and the consolidated-files fallback, with JS falsy
chaining (`!imageUrl`). -/
def imageUrlResolved (pg : NPage) : Option String :=
  let v1 := imageFromProp (imagePropOf pg)
  let v2 := if !(truthyS v1) && truthyS pg.coverExternalUrl then pg.coverExternalUrl else v1
  let fo := filesResolved pg
  if !(truthyS v2) && filesNonEmptyTruthy fo then
    match firstImageEntry (fo.getD []) with
    | some f => some f.url
    | none => v2
  else v2

/-- Source lines 111 and 166-169: the fully resolved video url. -/
def videoUrlResolved (pg : NPage) : Option String :=
  let v := urlOf (getProp pg "Video")
  let fo := filesResolved pg
  if !(truthyS v) && filesNonEmptyTruthy fo then
    match firstVideoEntry (fo.getD []) with
    | some f => some f.url
    | none => v
  else v

/-- Source line 171. -/
def utmSource (pg : NPage) : Option String :=
  richTextFirst (getProp pg "utm_source")

/-- Source line 172. -/
def utmCampaign (pg : NPage) : Option String :=
  richTextFirst (getProp pg "utm_campaign")

/-- Source line 173. -/
def utmMedium (pg : NPage) : Option String :=
  richTextFirst (getProp pg "utm_medium")

/-- A JS value stored in a field of `dataToStore`: a string, a boolean, or the
`utm` object of source lines 170-174 (whose three members may each be
`undefined`). -/
inductive JVal where
  | str (s : String)
  | bool (b : Bool)
  | utm (src camp med : Option String)
deriving DecidableEq, Repr

/-- Hexadecimal digit for JSON control-character escapes. -/
def hexDigit (n : Nat) : Char :=
  if n < 10 then Char.ofNat (48 + n) else Char.ofNat (87 + n)

/-- JSON escaping of one character, as performed by `JSON.stringify`. -/
def escapeJsonChar (c : Char) : String :=
  if c == '"' then "\\\""
  else if c == '\\' then "\\\\"
  else if c == '\n' then "\\n"
  else if c == '\r' then "\\r"
  else if c == '\t' then "\\t"
  else if c.toNat == 8 then "\\b"
  else if c.toNat == 12 then "\\f"
  else if c.toNat < 32 then "\\u00" ++ String.mk [hexDigit (c.toNat / 16), hexDigit (c.toNat % 16)]
  else String.mk [c]

/-- JSON escaping of a whole string. -/
def escapeJson (s : String) : String :=
  String.join (s.data.map escapeJsonChar)

/-- A JSON string literal. -/
def jsonQuote (s : String) : String :=
  "\"" ++ escapeJson s ++ "\""

/-- The serialized form of a `FileKind`. -/
def kindStr : FileKind → String
  | FileKind.image => "image"
  | FileKind.video => "video"
  | FileKind.other => "other"

/-- `JSON.stringify` of one consolidated-files entry, member order
`name, url, kind, ext, expiry`; `undefined` members are dropped. -/
def fileEntryJson (f : OutFile) : String :=
  "\x7b\"name\":" ++ jsonQuote f.name ++ ",\"url\":" ++ jsonQuote f.url
    ++ ",\"kind\":" ++ jsonQuote (kindStr f.kind)
    ++ (match f.ext with
        | some e => ",\"ext\":" ++ jsonQuote e
        | none => "")
    ++ (match f.expiry with
        | some e => ",\"expiry\":" ++ jsonQuote e
        | none => "")
    ++ "\x7d"

/-- `JSON.stringify(files)` (source line 201). -/
def filesJson (l : List OutFile) : String :=
  "[" ++ String.intercalate "," (l.map fileEntryJson) ++ "]"

/-- The object literal of source lines 189-202, before `removeNullUndefined`:
field order as written, each optional field still possibly `undefined`. -/
def rawRecord (pg : NPage) : List (String × Option JVal) :=
  [("destination", (destinationOf pg).map JVal.str),
   ("utm", some (JVal.utm (utmSource pg) (utmCampaign pg) (utmMedium pg))),
   ("linkTreeEnabled", some (JVal.bool (linkTreeEnabled pg))),
   ("title", (titleResolved pg).map JVal.str),
   ("description", (descriptionOf pg).map JVal.str),
   ("details", (detailsOf pg).map JVal.str),
   ("iconEmoji", pg.iconEmoji.map JVal.str),
   ("imageUrl", (imageUrlResolved pg).map JVal.str),
   ("category", (categoryOf pg).map JVal.str),
   ("pinned", some (JVal.bool (pinned pg))),
   ("videoUrl", (videoUrlResolved pg).map JVal.str),
   ("files", (filesResolved pg).map (fun l => JVal.str (filesJson l)))]

/-- Source lines 39-47: keep exactly the top-level entries whose value is
neither `null` nor `undefined`, preserving order. -/
def removeNullUndefined (r : List (String × Option JVal)) : List (String × Option JVal) :=
  r.filter (fun kv => kv.2.isSome)

/-- `dataToStore` of source line 189. -/
def dataToStore (pg : NPage) : List (String × Option JVal) :=
  removeNullUndefined (rawRecord pg)

/-- One outbound cache-store call. -/
inductive CacheOp where
  | hdel (key field : String)
  | hset (key : String) (record : List (String × Option JVal))
  | keysScan (pat : String)
  | setValue (key value : String)
  | getValue (key : String)
deriving DecidableEq, Repr

/-- Source line 179: `campaign:` + slug. -/
def campaignKey (s : String) : String :=
  "campaign:" ++ s

/-- JS truthiness of `slug && destination` (source line 176). -/
def qualifies (pg : NPage) : Bool :=
  truthyS (slugOf pg) && truthyS (destinationOf pg)

/-- The three conditional stale-field deletions of source lines 180-188. -/
def hdelOps (pg : NPage) : List CacheOp :=
  (if !(truthyS (imageUrlResolved pg)) then [CacheOp.hdel (campaignKey ((slugOf pg).getD "")) "imageUrl"] else [])
    ++ (if !(truthyS (videoUrlResolved pg)) then [CacheOp.hdel (campaignKey ((slugOf pg).getD "")) "videoUrl"] else [])
    ++ (if !(filesNonEmptyTruthy (filesResolved pg)) then [CacheOp.hdel (campaignKey ((slugOf pg).getD "")) "files"] else [])

/-- Source lines 176-207: processing of one page — either the conditional
deletions followed by the single batched `hset`, or a logged skip; the
returned strings are the console messages of that branch. -/
def processPage (pg : NPage) : List CacheOp × List String :=
  if qualifies pg then
    let s := (slugOf pg).getD ""
    (hdelOps pg ++ [CacheOp.hset (campaignKey s) (dataToStore pg)],
     ["Saving campaign: " ++ s ++ " -> " ++ (destinationOf pg).getD "",
      "Synced campaign: " ++ s])
  else
    ([], ["Skipping page due to missing slug or destination: " ++ pg.id])

/-- The cache calls of a whole pass over the fetched result list. -/
def passOps (pgs : List NPage) : List CacheOp :=
  (pgs.map (fun p => (processPage p).1)).flatten

/-- The environment variables read by the script. -/
structure Env where
  notionKey : Option String
  notionRedirectsId : Option String
  upstashRedisRestUrl : Option String
  upstashRedisRestToken : Option String
deriving DecidableEq, Repr

/-- The outcome of the document-API query (source lines 50-66). -/
inductive FetchResult where
  | ok (pages : List NPage)
  | httpError (status : Nat) (statusText : String) (body : String)
deriving DecidableEq, Repr

/-- The message of the error thrown at source line 63. -/
def notionErrorMessage (status : Nat) (statusText : String) : String :=
  "Notion API error: " ++ toString status ++ " " ++ statusText

/-- The message of the error thrown at source line 36. -/
def missingCredsMessage : String :=
  "Missing NOTION_KEY or NOTION_REDIRECTS_ID in environment"

/-- The guaranteed cleanup of the `finally` block (source lines 211-220):
key listing, diagnostic set and get. -/
def finalCleanupOps : List CacheOp :=
  [CacheOp.keysScan "campaign:*", CacheOp.setValue "test_key" "test_value",
   CacheOp.getValue "test_key"]

/-- Outcome of one invocation of `syncCampaigns`. -/
inductive PassResult where
  | configError (message : String)
  | completed (ops : List CacheOp) (caughtError : Option String)
deriving DecidableEq, Repr

/-- The whole of `syncCampaigns` (source lines 27-221): the credential check of
lines 33-37 runs before the `try` block and consults only the two Notion
variables; a non-success fetch throws inside the `try`, is caught at line 209
and logged, and the `finally` block still runs; a successful fetch processes
every page in order, then the `finally` block runs. -/
def syncCampaigns (e : Env) (fetched : FetchResult) : PassResult :=
  if !(truthyS e.notionKey && truthyS e.notionRedirectsId) then
    PassResult.configError missingCredsMessage
  else
    match fetched with
    | FetchResult.httpError st stx _ =>
      PassResult.completed finalCleanupOps (some (notionErrorMessage st stx))
    | FetchResult.ok pages =>
      PassResult.completed (passOps pages ++ finalCleanupOps) none

/-- Process exit code (source line 223 and Node's unhandled-rejection exit):
a config error escapes `syncCampaigns` and terminates the process non-zero;
a completed pass reaches `process.exit(0)`. -/
def processExitCode : PassResult → Nat
  | PassResult.configError _ => 1
  | PassResult.completed _ _ => 0

/-- The cache contents: hash value per key and field. -/
def CacheState := String → String → Option JVal

/-- Effect of one cache call on the cache contents; `delOk` says which
`hdel` calls succeed (a failing deletion leaves the cache unchanged and is
swallowed by the empty `catch` of source lines 181, 184, 187). -/
def applyOp (delOk : String → String → Bool) (st : CacheState) : CacheOp → CacheState
  | CacheOp.hdel k f =>
    if delOk k f then
      fun k2 f2 => if k2 == k && f2 == f then none else st k2 f2
    else st
  | CacheOp.hset k r =>
    fun k2 f2 =>
      if k2 == k then
        match r.lookup f2 with
        | some v => v
        | none => st k2 f2
      else st k2 f2
  | _ => st

/-- Effect of a call sequence. -/
def applyOps (delOk : String → String → Bool) (st : CacheState) (ops : List CacheOp) : CacheState :=
  ops.foldl (applyOp delOk) st

lemma toNat_ofNat_valid (n : Nat) (h : n.isValidChar) : (Char.ofNat n).toNat = n := by
  simp [Char.ofNat, dif_pos h, Char.ofNatAux, Char.toNat, UInt32.toNat]

lemma char_toLower_idem (c : Char) : c.toLower.toLower = c.toLower := by
  unfold Char.toLower
  by_cases h : c.toNat ≥ 65 ∧ c.toNat ≤ 90
  · rw [if_pos h]
    have hv : (c.toNat + 32).isValidChar := Or.inl (by omega)
    have ht : (Char.ofNat (c.toNat + 32)).toNat = c.toNat + 32 := toNat_ofNat_valid _ hv
    rw [if_neg]
    rw [ht]
    omega
  · rw [if_neg h, if_neg h]

lemma lowerStr_idem (s : String) : lowerStr (lowerStr s) = lowerStr s := by
  simp only [lowerStr, List.map_map]
  congr 1
  exact List.map_congr_left (fun c _ => char_toLower_idem c)

lemma findExt_eq_head (l : List Char) : findExt l = (extRuns l).head? := by
  induction l with
  | nil => rfl
  | cons c cs ih =>
    by_cases h : (c == '.' && !((cs.takeWhile isAlnumChar).isEmpty)
        && termCharOk (cs.dropWhile isAlnumChar)) = true
    · simp [findExt, extRuns, h]
    · simp [findExt, extRuns, h, ih]

lemma lowerStr_runLower (run : List Char) : lowerStr (runLower run) = runLower run := by
  simp only [lowerStr, runLower, List.map_map]
  congr 1
  exact List.map_congr_left (fun c _ => char_toLower_idem c)

/-- The extension produced by `inferKind` is already lowercase. -/
lemma inferKind_ext_lower (s : String) :
    lowerStr ((inferKind s).ext.getD "") = (inferKind s).ext.getD "" := by
  unfold inferKind
  cases h : findExt s.data with
  | none => rfl
  | some run =>
    by_cases h1 : runLower run ∈ imgExts
    · simp [h1, lowerStr_runLower]
    · by_cases h2 : runLower run ∈ vidExts
      · simp [h1, h2, lowerStr_runLower]
      · simp [h1, h2, lowerStr_runLower]

/-- `inferKind` classifies as image exactly when the produced extension is in
the image list. -/
lemma inferKind_image_iff (s : String) :
    ((inferKind s).kind = FileKind.image) ↔ ((inferKind s).ext.getD "" ∈ imgExts) := by
  unfold inferKind
  cases h : findExt s.data with
  | none =>
    simp only [Option.getD_none]
    simp only [show ("" ∈ imgExts) = False by simp [imgExts]]
    simp
  | some run =>
    by_cases h1 : runLower run ∈ imgExts
    · simp [h1]
    · by_cases h2 : runLower run ∈ vidExts
      · simp [h1, h2]
      · simp [h1, h2]

/-- `inferKind` classifies as video exactly when the produced extension is in
the video list. -/
lemma inferKind_video_iff (s : String) :
    ((inferKind s).kind = FileKind.video) ↔ ((inferKind s).ext.getD "" ∈ vidExts) := by
  unfold inferKind
  cases h : findExt s.data with
  | none =>
    simp only [Option.getD_none]
    simp only [show ("" ∈ vidExts) = False by simp [vidExts]]
    simp
  | some run =>
    by_cases h1 : runLower run ∈ imgExts
    · have hd : runLower run ∉ vidExts := by
        have hx : ∀ x ∈ imgExts, x ∉ vidExts := by decide
        exact hx _ h1
      simp [h1, hd]
    · by_cases h2 : runLower run ∈ vidExts
      · simp [h1, h2]
      · simp [h1, h2]

lemma find?_congr_mem {α : Type} {p q : α → Bool} {l : List α} (h : ∀ x ∈ l, p x = q x) :
    l.find? p = l.find? q := by
  induction l with
  | nil => rfl
  | cons a t ih =>
    have ha := h a (by simp)
    cases hp : p a with
    | true =>
      rw [List.find?_cons_of_pos _ hp, List.find?_cons_of_pos _ (ha ▸ hp)]
    | false =>
      rw [List.find?_cons_of_neg _ (by simp [hp]), List.find?_cons_of_neg _ (by rw [← ha]; simp [hp])]
      exact ih (fun x hx => h x (List.mem_cons_of_mem _ hx))

/-- When every `q`-but-not-`p` element lies in the suffix `B` and `B` holds no
`p` element, the two-pass search `find? p <|> find? q` agrees with a single
search for `p or q`. -/
lemma find?_or_split {α : Type} {p q : α → Bool} (A B : List α)
    (hA : ∀ f ∈ A, q f = true → p f = true) (hB : ∀ f ∈ B, p f = false) :
    ((A ++ B).find? p <|> (A ++ B).find? q) = (A ++ B).find? (fun f => p f || q f) := by
  induction A with
  | nil =>
    simp only [List.nil_append]
    have h1 : B.find? p = none := List.find?_eq_none.mpr (fun x hx => by simp [hB x hx])
    rw [h1]
    simp only [Option.none_orElse]
    exact find?_congr_mem (fun x hx => by simp [hB x hx])
  | cons a A ih =>
    by_cases hp : p a = true
    · simp [List.cons_append, List.find?_cons, hp]
    · have hq : q a = false := by
        cases hqv : q a with
        | false => rfl
        | true => exact absurd (hA a (by simp) hqv) hp
      have hp' : p a = false := by simpa using hp
      simp only [List.cons_append, List.find?_cons, hp', hq, Bool.false_or]
      exact ih (fun f hf => hA f (List.mem_cons_of_mem _ hf))

/-- Plain membership of an entry's `ext` in the image extension set, exactly as
the specification words it ("by extension in \x7bjpg, jpeg, png, gif, webp,
avif, svg\x7d"). -/
def isImageExtPlain (e : Option String) : Bool :=
  imgExts.contains (e.getD "")

/-- Specification reading of claim C4: the image url is the first of the five
resolution steps that yields a value — the type-matched `Image`/`Thumbnail`
step, then the cover external url, then the url of the first consolidated
entry classified as an image by kind or extension; absent if no step yields
anything. -/
def specImageClaim (pg : NPage) : Option String :=
  (imageFromProp (imagePropOf pg))
    <|> pg.coverExternalUrl
    <|> (((filesResolved pg).getD []).find?
          (fun f => (f.kind == FileKind.image) || isImageExtPlain f.ext)).map (fun f => f.url)

/-- Amended reading of claim C4: a step outcome is kept only when it is a
non-empty string; later steps supersede an empty-string outcome, and when no
later step applies, the empty-string outcome of the property step remains as
the final (present but empty) value. -/
def specImageAmended (pg : NPage) : Option String :=
  let base := imageFromProp (imagePropOf pg)
  if truthyS base then base
  else if truthyS pg.coverExternalUrl then pg.coverExternalUrl
  else
    match ((filesResolved pg).getD []).find?
        (fun f => (f.kind == FileKind.image) || isImageExtPlain f.ext) with
    | some f => some f.url
    | none => base

/-- Specification reading of claim C5: take the entries of the first property
among `Media`, `Files`, `Image`, `File` that is present AND typed `files`,
then append the `video`-property entries tagged as videos. -/
def specSelectedFilesSource (pg : NPage) : Option (List NFile) :=
  match getProp pg "Media" with
  | some (NProp.files fs) => some fs
  | _ =>
    match getProp pg "Files" with
    | some (NProp.files fs) => some fs
    | _ =>
      match getProp pg "Image" with
      | some (NProp.files fs) => some fs
      | _ =>
        match getProp pg "File" with
        | some (NProp.files fs) => some fs
        | _ => none

/-- The consolidated files list as claim C5 states it. -/
def specFilesClaim (pg : NPage) : Option (List OutFile) :=
  let prim := (specSelectedFilesSource pg).map (fun fs => fs.map mapSourceFile)
  match getProp pg "video" with
  | some (NProp.files fs) => some (prim.getD [] ++ fs.map mapVideoFile)
  | _ => prim

/-- Amended reading of claim C5: the primary source is the first property of
the four names that is PRESENT (whatever its type); its entries are used only
when that selected property is typed `files` — a present but wrongly typed
earlier name masks a later files-typed one. -/
def specFilesAmended (pg : NPage) : Option (List OutFile) :=
  let prim :=
    match getProp pg "Media" <|> getProp pg "Files" <|> getProp pg "Image" <|> getProp pg "File" with
    | some (NProp.files fs) => some (fs.map mapSourceFile)
    | _ => none
  match getProp pg "video" with
  | some (NProp.files fs) => some (prim.getD [] ++ fs.map mapVideoFile)
  | _ => prim

/-- Specification reading of claim C8: the title is the first run of a
rich-text-typed `Title` when present, else the first run of a title-typed
`Title` when present, else the slug — falling back exactly on absence. -/
def specTitleClaim (pg : NPage) : Option String :=
  (richTextFirst (getProp pg "Title")) <|> (titleFirst (getProp pg "Title")) <|> slugOf pg

/-- Amended reading of claim C8: the fallback to the slug also fires when the
preferred value is present but is the empty string. -/
def specTitleAmended (pg : NPage) : Option String :=
  match (richTextFirst (getProp pg "Title")) <|> (titleFirst (getProp pg "Title")) with
  | some t => if t == "" then slugOf pg else some t
  | none => slugOf pg

/-- The lowercased LAST qualifying run of the extension pattern, as claim C10
words the extension. -/
def specExtLast (s : String) : Option String :=
  (extRuns s.data).getLast?.map runLower

/-- The lowercased FIRST (leftmost) qualifying run of the extension pattern —
what `exec` actually returns. -/
def specExtFirst (s : String) : Option String :=
  (extRuns s.data).head?.map runLower

/-- Substring test at the character level (needle occurs somewhere in the
haystack). -/
def listHasSub (needle : List Char) : List Char → Bool
  | [] => needle.isEmpty
  | c :: t => ((c :: t).take needle.length == needle) || listHasSub needle t

/-- Substring test on strings. -/
def strHasSub (hay needle : String) : Bool :=
  listHasSub needle.data hay.data

lemma mapSourceFile_kind_ext (nf : NFile) :
    ∃ s : String, (mapSourceFile nf).kind = (inferKind s).kind
      ∧ (mapSourceFile nf).ext = (inferKind s).ext := by
  cases nf with
  | internalFile n u e => exact ⟨jsOrStr n (u.getD ""), rfl, rfl⟩
  | externalFile n u => exact ⟨jsOrStr n (u.getD ""), rfl, rfl⟩

lemma mapVideoFile_kind (nf : NFile) : (mapVideoFile nf).kind = FileKind.video := by
  cases nf <;> rfl

lemma mapVideoFile_ext (nf : NFile) :
    ∃ s : String, (mapVideoFile nf).ext = (inferKind s).ext := by
  cases nf with
  | internalFile n u e => exact ⟨jsOrStr n (u.getD ""), rfl⟩
  | externalFile n u => exact ⟨jsOrStr n (u.getD ""), rfl⟩

lemma isImageExtCI_inferKind (s : String) :
    isImageExtCI (inferKind s).ext = isImageExtPlain (inferKind s).ext := by
  unfold isImageExtCI isImageExtPlain
  rw [inferKind_ext_lower]

lemma inferKind_image_of_plain (s : String)
    (h : isImageExtPlain (inferKind s).ext = true) :
    ((inferKind s).kind == FileKind.image) = true := by
  rw [beq_iff_eq, inferKind_image_iff]
  unfold isImageExtPlain at h
  simpa using h

lemma filesResolved_split (pg : NPage) :
    filesResolved pg = none ∨
    filesResolved pg = some ((primaryFiles pg).getD [] ++ (videoExtraFiles pg).getD []) := by
  unfold filesResolved
  cases hv : videoExtraFiles pg with
  | none =>
    cases hp : primaryFiles pg with
    | none => exact Or.inl rfl
    | some l => right; simp [hp]
  | some ex => right; simp

lemma primaryFiles_shape (pg : NPage) (l : List OutFile) (h : primaryFiles pg = some l) :
    ∃ fs : List NFile, l = fs.map mapSourceFile := by
  unfold primaryFiles at h
  cases hp : filesPropOf pg with
  | none => rw [hp] at h; cases h
  | some p =>
    rw [hp] at h
    cases p <;> simp at h
    case files fs => exact ⟨fs, h.symm⟩

lemma videoExtraFiles_shape (pg : NPage) (l : List OutFile) (h : videoExtraFiles pg = some l) :
    ∃ fs : List NFile, l = fs.map mapVideoFile := by
  unfold videoExtraFiles at h
  cases hp : getProp pg "video" with
  | none => rw [hp] at h; cases h
  | some p =>
    rw [hp] at h
    cases p <;> simp at h
    case files fs => exact ⟨fs, h.symm⟩

lemma primaryFiles_mem (pg : NPage) (f : OutFile) (hf : f ∈ (primaryFiles pg).getD []) :
    ∃ nf : NFile, f = mapSourceFile nf := by
  cases hp : primaryFiles pg with
  | none => rw [hp] at hf; cases hf
  | some l =>
    rw [hp] at hf
    obtain ⟨fs, rfl⟩ := primaryFiles_shape pg l hp
    simp only [Option.getD_some, List.mem_map] at hf
    obtain ⟨nf, _, hnf⟩ := hf
    exact ⟨nf, hnf.symm⟩

lemma videoExtraFiles_mem (pg : NPage) (f : OutFile) (hf : f ∈ (videoExtraFiles pg).getD []) :
    ∃ nf : NFile, f = mapVideoFile nf := by
  cases hp : videoExtraFiles pg with
  | none => rw [hp] at hf; cases hf
  | some l =>
    rw [hp] at hf
    obtain ⟨fs, rfl⟩ := videoExtraFiles_shape pg l hp
    simp only [Option.getD_some, List.mem_map] at hf
    obtain ⟨nf, _, hnf⟩ := hf
    exact ⟨nf, hnf.symm⟩

/-- On any list actually produced as a consolidated files list, the two-pass
search of source line 163 coincides with the single search for "classified as
an image by kind or by extension" that the specification describes. -/
lemma firstImageEntry_resolved (pg : NPage) (L : List OutFile)
    (hL : filesResolved pg = some L) :
    firstImageEntry L
      = L.find? (fun f => (f.kind == FileKind.image) || isImageExtPlain f.ext) := by
  rcases filesResolved_split pg with hnone | heq
  · rw [hnone] at hL; cases hL
  · rw [heq] at hL
    have hLeq : L = (primaryFiles pg).getD [] ++ (videoExtraFiles pg).getD [] := by
      injection hL with h; exact h.symm
    subst hLeq
    unfold firstImageEntry
    have hCI : ∀ f ∈ (primaryFiles pg).getD [] ++ (videoExtraFiles pg).getD [],
        isImageExtCI f.ext = isImageExtPlain f.ext := by
      intro f hf
      rcases List.mem_append.mp hf with hfa | hfb
      · obtain ⟨nf, rfl⟩ := primaryFiles_mem pg f hfa
        obtain ⟨s, _, he⟩ := mapSourceFile_kind_ext nf
        rw [he, isImageExtCI_inferKind]
      · obtain ⟨nf, rfl⟩ := videoExtraFiles_mem pg f hfb
        obtain ⟨s, he⟩ := mapVideoFile_ext nf
        rw [he, isImageExtCI_inferKind]
    rw [find?_congr_mem hCI]
    apply find?_or_split
    · intro f hfa hq
      obtain ⟨nf, rfl⟩ := primaryFiles_mem pg f hfa
      obtain ⟨s, hk, he⟩ := mapSourceFile_kind_ext nf
      rw [hk]
      rw [he] at hq
      exact inferKind_image_of_plain s hq
    · intro f hfb
      obtain ⟨nf, rfl⟩ := videoExtraFiles_mem pg f hfb
      rw [mapVideoFile_kind]
      rfl

lemma lookup_none_of_not_mem_keys {β : Type} (t : List (String × β)) (k : String)
    (h : k ∉ t.map Prod.fst) : t.lookup k = none := by
  induction t with
  | nil => rfl
  | cons a t ih =>
    obtain ⟨k', b⟩ := a
    simp only [List.map_cons, List.mem_cons] at h
    push_neg at h
    obtain ⟨h1, h2⟩ := h
    have hb : (k == k') = false := by
      simp only [beq_eq_false_iff_ne]
      exact h1
    simp only [List.lookup, hb]
    exact ih h2

/-- Looking a key up after `removeNullUndefined`: a `null`/`undefined` binding
disappears, a present binding survives (keys are assumed unique, as in a JS
object literal). -/
lemma lookup_filterIsSome (r : List (String × Option JVal)) (k : String)
    (h : (r.map Prod.fst).Nodup) :
    (removeNullUndefined r).lookup k
      = match r.lookup k with
        | some (some v) => some (some v)
        | _ => none := by
  induction r with
  | nil => rfl
  | cons a t ih =>
    obtain ⟨k', v'⟩ := a
    simp only [List.map_cons, List.nodup_cons] at h
    obtain ⟨hk', ht⟩ := h
    by_cases hkk : (k == k') = true
    · have hkeq : k = k' := by simpa using hkk
      cases v' with
      | some v =>
        simp [removeNullUndefined, List.lookup, hkk]
      | none =>
        have hnone : t.lookup k = none := by
          apply lookup_none_of_not_mem_keys
          rw [hkeq]
          exact fun hmem => hk' hmem
        have hrec := ih ht
        rw [hnone] at hrec
        simp only [removeNullUndefined, List.filter_cons]
        norm_num
        simp only [removeNullUndefined] at hrec
        rw [hrec]
        simp [List.lookup, hkk]
    · have hkk' : (k == k') = false := by simpa using hkk
      cases v' with
      | some v =>
        simp only [removeNullUndefined, List.filter_cons, Option.isSome_some, if_pos rfl]
        simp only [List.lookup, hkk']
        simpa [removeNullUndefined] using ih ht
      | none =>
        simp only [removeNullUndefined, List.filter_cons]
        norm_num
        simp only [List.lookup, hkk']
        simpa [removeNullUndefined] using ih ht

lemma rawRecord_keys (pg : NPage) :
    (rawRecord pg).map Prod.fst
      = ["destination", "utm", "linkTreeEnabled", "title", "description", "details",
         "iconEmoji", "imageUrl", "category", "pinned", "videoUrl", "files"] := rfl

lemma rawRecord_lookup_imageUrl (pg : NPage) :
    (rawRecord pg).lookup "imageUrl" = some ((imageUrlResolved pg).map JVal.str) := rfl

lemma rawRecord_lookup_videoUrl (pg : NPage) :
    (rawRecord pg).lookup "videoUrl" = some ((videoUrlResolved pg).map JVal.str) := rfl

lemma rawRecord_lookup_files (pg : NPage) :
    (rawRecord pg).lookup "files"
      = some ((filesResolved pg).map (fun l => JVal.str (filesJson l))) := rfl

lemma dataToStore_lookup_imageUrl (pg : NPage) :
    (dataToStore pg).lookup "imageUrl"
      = (imageUrlResolved pg).map (fun v => some (JVal.str v)) := by
  have h := lookup_filterIsSome (rawRecord pg) "imageUrl" (by rw [rawRecord_keys]; decide)
  rw [rawRecord_lookup_imageUrl] at h
  cases him : imageUrlResolved pg with
  | none => rw [him] at h; exact h
  | some v => rw [him] at h; exact h

lemma dataToStore_lookup_videoUrl (pg : NPage) :
    (dataToStore pg).lookup "videoUrl"
      = (videoUrlResolved pg).map (fun v => some (JVal.str v)) := by
  have h := lookup_filterIsSome (rawRecord pg) "videoUrl" (by rw [rawRecord_keys]; decide)
  rw [rawRecord_lookup_videoUrl] at h
  cases him : videoUrlResolved pg with
  | none => rw [him] at h; exact h
  | some v => rw [him] at h; exact h

lemma dataToStore_lookup_files (pg : NPage) :
    (dataToStore pg).lookup "files"
      = (filesResolved pg).map (fun l => some (JVal.str (filesJson l))) := by
  have h := lookup_filterIsSome (rawRecord pg) "files" (by rw [rawRecord_keys]; decide)
  rw [rawRecord_lookup_files] at h
  cases him : filesResolved pg with
  | none => rw [him] at h; exact h
  | some l => rw [him] at h; exact h

lemma applyOps_append (delOk : String → String → Bool) (st : CacheState)
    (ops1 ops2 : List CacheOp) :
    applyOps delOk st (ops1 ++ ops2) = applyOps delOk (applyOps delOk st ops1) ops2 := by
  unfold applyOps
  rw [List.foldl_append]

lemma applyOp_hset_at (delOk : String → String → Bool) (st : CacheState)
    (k : String) (r : List (String × Option JVal)) (f : String) :
    applyOp delOk st (CacheOp.hset k r) k f
      = match r.lookup f with
        | some v => v
        | none => st k f := by
  simp [applyOp]

lemma applyOp_other_key (delOk : String → String → Bool) (st : CacheState)
    (op : CacheOp) (k2 f2 : String)
    (h : ∀ k f, op = CacheOp.hdel k f → k2 ≠ k)
    (h2 : ∀ k r, op = CacheOp.hset k r → k2 ≠ k) :
    applyOp delOk st op k2 f2 = st k2 f2 := by
  cases op with
  | hdel k f =>
    have hne : k2 ≠ k := h k f rfl
    by_cases hd : delOk k f = true <;> simp [applyOp, hd, hne]
  | hset k r =>
    have hne : k2 ≠ k := h2 k r rfl
    simp [applyOp, hne]
  | keysScan p => rfl
  | setValue k v => rfl
  | getValue k => rfl

lemma applyOp_hdel_hit (delOk : String → String → Bool) (st : CacheState) (k f : String)
    (hd : delOk k f = true) :
    applyOp delOk st (CacheOp.hdel k f) k f = none := by
  simp [applyOp, hd]

lemma applyOp_hdel_other_field (delOk : String → String → Bool) (st : CacheState)
    (k f k2 f2 : String) (h : f2 ≠ f) :
    applyOp delOk st (CacheOp.hdel k f) k2 f2 = st k2 f2 := by
  by_cases hd : delOk k f = true <;> simp [applyOp, hd, h]

/-- A page whose `Slug` text carries a leading separator. -/
def c7Page : NPage :=
  ⟨"page-7", none, none, [("Slug", NProp.richText [some "/promo-2024"])]⟩

/-- C7: the derived slug is the first rich-text run of the `Slug` property with
exactly one leading `/` removed when the text starts with `/`, and is the text
unchanged otherwise; `"/promo-2024"` yields `"promo-2024"` and a text with two
leading separators loses only the first. -/
theorem c7_slug_strips_one_slash :
    (∀ (pg : NPage) (s : String), rawSlug pg = some s → slugOf pg = some (stripLeadingSlash s))
    ∧ (∀ s : String, s.data.head? = some '/' → (stripLeadingSlash s).data = s.data.tail)
    ∧ (∀ s : String, s.data.head? ≠ some '/' → stripLeadingSlash s = s)
    ∧ stripLeadingSlash "/promo-2024" = "promo-2024"
    ∧ stripLeadingSlash "//promo-2024" = "/promo-2024" := by
  refine ⟨?_, ?_, ?_, by decide, by decide⟩
  · intro pg s h
    simp [slugOf, h]
  · intro s h
    unfold stripLeadingSlash
    cases hd : s.data with
    | nil => rw [hd] at h; cases h
    | cons c cs =>
      rw [hd] at h
      simp only [List.head?_cons, Option.some.injEq] at h
      simp [h]
  · intro s h
    unfold stripLeadingSlash
    cases hd : s.data with
    | nil => rfl
    | cons c cs =>
      rw [hd] at h
      have hc : c ≠ '/' := by
        intro he
        exact h (by simp [he])
      simp [hc]

/-- Witness for C7 at the concrete inputs named by the specification. -/
theorem c7_witness :
    slugOf c7Page = some "promo-2024"
    ∧ (stripLeadingSlash "//x").data = "//x".data.tail := by
  constructor
  · have h1 := c7_slug_strips_one_slash.1 c7Page "/promo-2024" (by decide)
    have h2 := c7_slug_strips_one_slash.2.2.2.1
    rw [h1, h2]
  · exact c7_slug_strips_one_slash.2.1 "//x" (by decide)

/-- A page whose rich-text `Title` first run is present but empty. -/
def c8Page : NPage :=
  ⟨"page-8", none, none,
   [("Title", NProp.richText [some ""]), ("Slug", NProp.richText [some "promo"])]⟩

/-- C8 counterexample: with a present-but-empty first run of a rich-text
`Title`, the code falls back to the slug (JS `||`), while the claim, which
lets only absence trigger the fallback, keeps the empty run. -/
theorem c8_counterexample :
    titleResolved c8Page = some "promo"
    ∧ specTitleClaim c8Page = some ""
    ∧ titleResolved c8Page ≠ specTitleClaim c8Page := by
  decide

/-- C8 (amended): the resolved title is the first run of a rich-text-typed
`Title` when present and non-empty; otherwise the first run of a title-typed
`Title` when present and non-empty; otherwise the slug — the fallback to slug
occurring exactly when the preferred value is absent or empty. -/
theorem c8_title_amended (pg : NPage) : titleResolved pg = specTitleAmended pg := by
  unfold titleResolved specTitleAmended jsOrOpt titleFromTitle titleRich
  cases h : (richTextFirst (getProp pg "Title")) <|> (titleFirst (getProp pg "Title")) with
  | none => simp [truthyS]
  | some t =>
    by_cases ht : (t == "") = true
    · simp [truthyS, ht]
    · have ht' : (t == "") = false := by simpa using ht
      simp [truthyS, ht']

/-- C10 counterexample: on `"a.png#b.mp4"` the regex `exec` returns the
leftmost qualifying run `png` (kind image), not the last qualifying run
`mp4` that the claim describes. -/
theorem c10_counterexample :
    inferKind "a.png#b.mp4" = ⟨FileKind.image, some "png"⟩
    ∧ specExtLast "a.png#b.mp4" = some "mp4"
    ∧ (inferKind "a.png#b.mp4").ext ≠ specExtLast "a.png#b.mp4" := by
  decide

/-- C10 (amended): `inferKind` is total and deterministic; the extension is the
lowercased FIRST (leftmost) run of alphanumeric characters following a `.` and
terminated by end-of-string, `?` or `#`; the kind is image exactly when that
extension is in the image list, video exactly when in the video list, and
other otherwise (in particular when no extension is found, where `ext` is
absent); for a file entry a non-empty name takes precedence over the URL as
the classified string. -/
theorem c10_inferKind_amended :
    (∀ s : String, (inferKind s).ext = specExtFirst s)
    ∧ (∀ s : String, ((inferKind s).kind = FileKind.image ↔ (inferKind s).ext.getD "" ∈ imgExts))
    ∧ (∀ s : String, ((inferKind s).kind = FileKind.video ↔ (inferKind s).ext.getD "" ∈ vidExts))
    ∧ (∀ s : String, ((inferKind s).kind = FileKind.other ↔
        ((inferKind s).ext.getD "" ∉ imgExts ∧ (inferKind s).ext.getD "" ∉ vidExts)))
    ∧ (∀ s : String, findExt s.data = none → (inferKind s).ext = none)
    ∧ (∀ (s : String) (e : String), (inferKind s).ext = some e → lowerStr e = e)
    ∧ (∀ (n u : String) (x : Option String), n ≠ "" →
        (mapSourceFile (NFile.internalFile (some n) (some u) x)).kind = (inferKind n).kind
        ∧ (mapSourceFile (NFile.externalFile (some n) (some u))).kind = (inferKind n).kind)
    ∧ (∀ (u : String) (x : Option String),
        (mapSourceFile (NFile.internalFile (some "") (some u) x)).kind = (inferKind u).kind
        ∧ (mapSourceFile (NFile.internalFile none (some u) x)).kind = (inferKind u).kind) := by
  refine ⟨?_, inferKind_image_iff, inferKind_video_iff, ?_, ?_, ?_, ?_, ?_⟩
  · intro s
    unfold inferKind specExtFirst
    rw [findExt_eq_head s.data]
    cases (extRuns s.data).head? with
    | none => rfl
    | some run =>
      simp only [Option.map_some]
      split_ifs <;> rfl
  · intro s
    have hi := inferKind_image_iff s
    have hv := inferKind_video_iff s
    cases hk : (inferKind s).kind with
    | image =>
      rw [hk] at hi
      simp only [true_iff] at hi
      simp [hi]
    | video =>
      rw [hk] at hv
      simp only [true_iff] at hv
      simp [hv]
    | other =>
      rw [hk] at hi hv
      constructor
      · intro _
        refine ⟨fun hm => ?_, fun hm => ?_⟩
        · have hc := hi.mpr hm
          simp at hc
        · have hc := hv.mpr hm
          simp at hc
      · intro _
        rfl
  · intro s h
    unfold inferKind
    rw [h]
  · intro s e h
    have hl := inferKind_ext_lower s
    rw [h] at hl
    simpa using hl
  · intro n u x hn
    have hb : (n == "") = false := by simpa using hn
    constructor <;> simp [mapSourceFile, jsOrStr, hb]
  · intro u x
    constructor <;> simp [mapSourceFile, jsOrStr]

/-- Witness for C10 at concrete inputs, discharging the hypotheses of the
conditional conjuncts. -/
theorem c10_witness :
    (inferKind "archive.tar.gz").ext = specExtFirst "archive.tar.gz"
    ∧ (inferKind "noext").ext = none
    ∧ (mapSourceFile (NFile.internalFile (some "banner.png") (some "https://x/y.mp4") none)).kind
        = (inferKind "banner.png").kind := by
  refine ⟨c10_inferKind_amended.1 "archive.tar.gz", ?_, ?_⟩
  · exact c10_inferKind_amended.2.2.2.2.1 "noext" (by decide)
  · exact (c10_inferKind_amended.2.2.2.2.2.2.1 "banner.png" "https://x/y.mp4" none (by decide)).1

/-- An environment with both Notion credentials present and both cache
credentials absent. -/
def c2Env : Env := ⟨some "notion-key", some "notion-db", none, none⟩

/-- C2 counterexample: with the cache endpoint URL and cache token both
absent (but the two document-API credentials present), `syncCampaigns` raises
no synchronous error, proceeds to consume the fetch result, and the process
exits zero — the script validates only `NOTION_KEY` and `NOTION_REDIRECTS_ID`. -/
theorem c2_counterexample :
    c2Env.upstashRedisRestUrl = none
    ∧ c2Env.upstashRedisRestToken = none
    ∧ syncCampaigns c2Env (FetchResult.ok []) = PassResult.completed finalCleanupOps none
    ∧ processExitCode (syncCampaigns c2Env (FetchResult.ok [])) = 0 := by
  decide

/-- C2 (amended): if the document-API key or the source database identifier is
absent (or empty), `syncCampaigns` throws the descriptive error
`Missing NOTION_KEY or NOTION_REDIRECTS_ID in environment` synchronously
before the fetch — the outcome is the same whatever the fetch would have
returned — and the process exits non-zero; the cache endpoint URL and cache
token are not validated by the script. -/
theorem c2_config_check_amended (e : Env) (fr : FetchResult)
    (h : truthyS e.notionKey = false ∨ truthyS e.notionRedirectsId = false) :
    syncCampaigns e fr = PassResult.configError missingCredsMessage
    ∧ processExitCode (syncCampaigns e fr) = 1
    ∧ (∀ fr2 : FetchResult, syncCampaigns e fr = syncCampaigns e fr2) := by
  have hc : (truthyS e.notionKey && truthyS e.notionRedirectsId) = false := by
    rcases h with h | h <;> simp [h]
  refine ⟨by simp [syncCampaigns, hc], by simp [syncCampaigns, hc, processExitCode], ?_⟩
  intro fr2
  simp [syncCampaigns, hc]

/-- Witness for C2 at a concrete environment lacking the document-API key. -/
theorem c2_witness :
    syncCampaigns ⟨none, some "db", some "https://cache", some "tok"⟩ (FetchResult.ok [])
      = PassResult.configError missingCredsMessage
    ∧ processExitCode (syncCampaigns ⟨none, some "db", some "https://cache", some "tok"⟩
        (FetchResult.ok [])) = 1 := by
  have h := c2_config_check_amended ⟨none, some "db", some "https://cache", some "tok"⟩
    (FetchResult.ok []) (Or.inl (by decide))
  exact ⟨h.1, h.2.1⟩

/-- A fully populated environment. -/
def c3Env : Env := ⟨some "nk", some "db", some "https://cache.example", some "tok"⟩

/-- C3 counterexample: on a non-success fetch the thrown error message carries
the status code and status text but NOT the response body text, and the error
is caught inside `syncCampaigns`, so the cleanup still runs and the process
exits zero, not non-zero. -/
theorem c3_counterexample :
    syncCampaigns c3Env (FetchResult.httpError 500 "Internal Server Error" "upstream-body-text")
      = PassResult.completed finalCleanupOps (some "Notion API error: 500 Internal Server Error")
    ∧ processExitCode (syncCampaigns c3Env
        (FetchResult.httpError 500 "Internal Server Error" "upstream-body-text")) = 0
    ∧ strHasSub (notionErrorMessage 500 "Internal Server Error") "upstream-body-text" = false := by
  decide

/-- C3 (amended): when the query returns a non-success HTTP status,
`syncCampaigns` throws an error whose message carries the status code and
status text (the response body text is only logged, not carried); no page is
processed and no campaign `hset` occurs in that pass; the error is caught and
logged by the pass's own `catch`, the cleanup block still runs, and the
process then exits ZERO — only errors raised outside the `try`/`catch`
(such as the missing-credential error) exit non-zero. -/
theorem c3_fetch_error_amended (e : Env) (st : Nat) (stx body : String)
    (h : (truthyS e.notionKey && truthyS e.notionRedirectsId) = true) :
    syncCampaigns e (FetchResult.httpError st stx body)
      = PassResult.completed finalCleanupOps (some (notionErrorMessage st stx))
    ∧ (∀ (k : String) (r : List (String × Option JVal)), CacheOp.hset k r ∉ finalCleanupOps)
    ∧ processExitCode (syncCampaigns e (FetchResult.httpError st stx body)) = 0
    ∧ notionErrorMessage st stx = "Notion API error: " ++ toString st ++ " " ++ stx := by
  refine ⟨by simp [syncCampaigns, h], ?_, by simp [syncCampaigns, h, processExitCode], rfl⟩
  intro k r hmem
  simp [finalCleanupOps] at hmem

/-- Witness for C3 at a concrete environment and response. -/
theorem c3_witness :
    syncCampaigns c3Env (FetchResult.httpError 404 "Not Found" "nope")
      = PassResult.completed finalCleanupOps (some (notionErrorMessage 404 "Not Found"))
    ∧ processExitCode (syncCampaigns c3Env (FetchResult.httpError 404 "Not Found" "nope")) = 0 := by
  have h := c3_fetch_error_amended c3Env 404 "Not Found" "nope" (by decide)
  exact ⟨h.1, h.2.2.1⟩

/-- C1: a page produces a cache write (`hset` on `campaign:` + slug) exactly
when both the derived slug and the destination are present and non-empty; a
page missing either produces no cache operation and is logged as skipped; and
processing continues page by page, so one skipped page leaves the operations
of every other page unchanged. -/
theorem c1_write_iff_slug_destination (pg : NPage) :
    ((∃ (s : String) (r : List (String × Option JVal)),
        slugOf pg = some s ∧ CacheOp.hset (campaignKey s) r ∈ (processPage pg).1)
      ↔ qualifies pg = true)
    ∧ (qualifies pg = false →
        (processPage pg).1 = []
        ∧ (processPage pg).2 = ["Skipping page due to missing slug or destination: " ++ pg.id])
    ∧ (∀ pre post : List NPage,
        passOps (pre ++ pg :: post) = passOps pre ++ (processPage pg).1 ++ passOps post) := by
  refine ⟨⟨?_, ?_⟩, ?_, ?_⟩
  · rintro ⟨s, r, _, hmem⟩
    by_cases hq : qualifies pg = true
    · exact hq
    · have hq' : qualifies pg = false := by simpa using hq
      rw [show (processPage pg).1 = [] by simp [processPage, hq']] at hmem
      cases hmem
  · intro hq
    have hslug : truthyS (slugOf pg) = true := by
      unfold qualifies at hq
      exact (Bool.and_eq_true _ _).mp hq |>.1
    cases hs : slugOf pg with
    | none => rw [hs] at hslug; cases hslug
    | some s =>
      refine ⟨s, dataToStore pg, rfl, ?_⟩
      have : (processPage pg).1 = hdelOps pg ++ [CacheOp.hset (campaignKey ((slugOf pg).getD "")) (dataToStore pg)] := by
        simp [processPage, hq]
      rw [this, hs]
      simp
  · intro hq
    simp [processPage, hq]
  · intro pre post
    simp [passOps]

/-- A qualifying page: slug and destination both present and non-empty. -/
def c1Page : NPage :=
  ⟨"page-1", none, none,
   [("Slug", NProp.richText [some "/promo-2024"]),
    ("Destination", NProp.richText [some "https://dest.example"])]⟩

/-- A page with a slug but no destination. -/
def c1SkipPage : NPage :=
  ⟨"page-1b", none, none, [("Slug", NProp.richText [some "nodest"])]⟩

/-- Witness for C1: a qualifying page gets its `hset`, a page without a
destination produces no cache operation and the skip log line. -/
theorem c1_witness :
    (∃ (s : String) (r : List (String × Option JVal)),
      slugOf c1Page = some s ∧ CacheOp.hset (campaignKey s) r ∈ (processPage c1Page).1)
    ∧ (processPage c1SkipPage).1 = []
    ∧ (processPage c1SkipPage).2
        = ["Skipping page due to missing slug or destination: page-1b"] := by
  refine ⟨(c1_write_iff_slug_destination c1Page).1.mpr (by decide), ?_, ?_⟩
  · exact ((c1_write_iff_slug_destination c1SkipPage).2.1 (by decide)).1
  · have h := ((c1_write_iff_slug_destination c1SkipPage).2.1 (by decide)).2
    simpa using h

/-- A page whose `Image` property is a rich-text run holding the empty string,
with a cover image also present. -/
def c4Page : NPage :=
  ⟨"page-4", none, some "https://cover.example/c.png",
   [("Image", NProp.richText [some ""])]⟩

/-- A page whose `Image` property is a rich-text run holding the empty string,
with no cover and no files: the empty string remains the resolved value. -/
def c4PageNoCover : NPage :=
  ⟨"page-4b", none, none, [("Image", NProp.richText [some ""])]⟩

/-- C4 counterexample: step (b) yields the value `""` for both pages, so under
the claim the chain stops there with `""`; the code instead chains on JS
falsiness — with a cover present the cover wins, and with nothing later the
empty string stays as a present (non-absent) value. -/
theorem c4_counterexample :
    specImageClaim c4Page = some ""
    ∧ imageUrlResolved c4Page = some "https://cover.example/c.png"
    ∧ imageUrlResolved c4Page ≠ specImageClaim c4Page
    ∧ imageUrlResolved c4PageNoCover = some "" := by
  decide

/-- C4 (amended): the resolved image url follows the step order (a) url-typed
value of the `Image` property if present else `Thumbnail`; (b) same selected
property typed rich-text, first run; (c) same selected property typed files,
first entry with a non-empty URL (internal variant before external); (d) the
cover external url; (e) the url of the first consolidated-files entry
classified as an image by kind or by extension — except that a step's outcome
is kept only when NON-EMPTY: an empty-string outcome is superseded by a later
applicable step and otherwise remains as the final present-but-empty value,
so `imageUrl` is absent only when no step assigns anything. -/
theorem c4_image_priority_amended (pg : NPage) :
    imageUrlResolved pg = specImageAmended pg := by
  unfold imageUrlResolved specImageAmended
  by_cases hb : truthyS (imageFromProp (imagePropOf pg)) = true
  · simp [hb]
  · have hb' : truthyS (imageFromProp (imagePropOf pg)) = false := by simpa using hb
    by_cases hc : truthyS pg.coverExternalUrl = true
    · simp [hb', hc]
    · have hc' : truthyS pg.coverExternalUrl = false := by simpa using hc
      cases hf : filesResolved pg with
      | none => simp [hb', hc', hf, filesNonEmptyTruthy, firstImageEntry]
      | some l =>
        cases l with
        | nil => simp [hb', hc', hf, filesNonEmptyTruthy, firstImageEntry]
        | cons a t =>
          have hfe := firstImageEntry_resolved pg (a :: t) hf
          simp only [hb', hc', hf, filesNonEmptyTruthy, Bool.not_false, Bool.and_self,
            List.isEmpty_cons, Bool.not_true, Option.getD_some, if_true]
          rw [← hfe]
          simp only [firstImageEntry]
          simp [hb', hc']

/-- A page with a wrongly typed `Media` property masking a files-typed
`Files` property. -/
def c5Page : NPage :=
  ⟨"page-5", none, none,
   [("Media", NProp.richText [some "not a files property"]),
    ("Files", NProp.files [NFile.externalFile (some "a.png") (some "https://files.example/a.png")])]⟩

/-- C5 counterexample: the claim selects the first of the four names that is
present AND typed files (here `Files`), but the code's `??` chain selects the
first name that is merely PRESENT (here the rich-text `Media`), whose type
check then fails, so the code produces no consolidated list at all. -/
theorem c5_counterexample :
    filesResolved c5Page = none
    ∧ specFilesClaim c5Page
        = some [⟨"a.png", "https://files.example/a.png", FileKind.image, some "png", none⟩]
    ∧ filesResolved c5Page ≠ specFilesClaim c5Page := by
  decide

/-- C5 (amended): the primary source is the first property among `Media`,
`Files`, `Image`, `File` that is PRESENT (first match wins, never merged, and
a present non-files-typed name masks the rest); its entries are taken only
when that selected property is typed files.  The entries of a property
literally named `video` (lowercase) typed files are appended, each forced to
kind video; the order is primary entries first, then the video-tagged extras;
names and urls are resolved per the internal-file or external-link variant,
and only internally hosted entries carry the expiry timestamp. -/
theorem c5_files_consolidation_amended (pg : NPage) :
    (filesResolved pg = specFilesAmended pg)
    ∧ (∀ f ∈ (videoExtraFiles pg).getD [], f.kind = FileKind.video)
    ∧ (∀ (n u : Option String) (e : Option String),
        (mapSourceFile (NFile.internalFile n u e)).expiry = e
        ∧ (mapSourceFile (NFile.internalFile n u e)).url = u.getD ""
        ∧ (mapSourceFile (NFile.internalFile n u e)).name = n.getD (u.getD ""))
    ∧ (∀ (n u : Option String),
        (mapSourceFile (NFile.externalFile n u)).expiry = none
        ∧ (mapSourceFile (NFile.externalFile n u)).url = u.getD ""
        ∧ (mapSourceFile (NFile.externalFile n u)).name = n.getD (u.getD "")) := by
  refine ⟨?_, ?_, fun n u e => ⟨rfl, rfl, rfl⟩, fun n u => ⟨rfl, rfl, rfl⟩⟩
  · cases hv : getProp pg "video" with
    | none =>
      have h1 : videoExtraFiles pg = none := by simp [videoExtraFiles, hv]
      simp [filesResolved, specFilesAmended, h1, hv, primaryFiles, filesPropOf]
    | some p =>
      cases p <;>
        simp [filesResolved, specFilesAmended, videoExtraFiles, hv, primaryFiles, filesPropOf]
  · intro f hf
    obtain ⟨nf, rfl⟩ := videoExtraFiles_mem pg f hf
    exact mapVideoFile_kind nf

/-- Witness for C5: the video-tagged extra of a concrete page is forced to
kind video even though its extension is an image extension. -/
def c5VideoPage : NPage :=
  ⟨"page-5b", none, none,
   [("video", NProp.files [NFile.externalFile (some "poster.png") (some "https://v.example/poster.png")])]⟩

/-- Witness for C5 at a concrete page carrying only a `video` files property. -/
theorem c5_witness :
    filesResolved c5VideoPage = specFilesAmended c5VideoPage
    ∧ (⟨"poster.png", "https://v.example/poster.png", FileKind.video, some "png", none⟩ : OutFile).kind
        = FileKind.video := by
  have h := c5_files_consolidation_amended c5VideoPage
  refine ⟨h.1, ?_⟩
  exact h.2.1 ⟨"poster.png", "https://v.example/poster.png", FileKind.video, some "png", none⟩
    (by decide)

/-- The property claim C9 asserts of the record passed to the cache write: no
field holds `null`/`undefined`, and in particular no `undefined` utm sub-field
is still present inside the record. -/
def specNoNullDeep (r : List (String × Option JVal)) : Bool :=
  r.all (fun kv =>
    match kv.2 with
    | none => false
    | some (JVal.utm a b c) => a.isSome && b.isSome && c.isSome
    | some _ => true)

/-- A qualifying page with no utm properties at all. -/
def c9Page : NPage :=
  ⟨"page-9", none, none,
   [("Slug", NProp.richText [some "s9"]),
    ("Destination", NProp.richText [some "https://d9.example"])]⟩

/-- C9 counterexample: `removeNullUndefined` is shallow — the `utm` object is
always present and its three sub-fields, though they resolve to `undefined`,
are NOT omitted from the record passed to the cache write. -/
theorem c9_counterexample :
    ("utm", some (JVal.utm none none none)) ∈ dataToStore c9Page
    ∧ specNoNullDeep (dataToStore c9Page) = false := by
  decide

/-- C9 (amended): every TOP-LEVEL field of the record passed to the cache
write is non-null — any top-level field resolving to `null`/`undefined` after
all fallback steps is omitted entirely, never written as null — but the `utm`
object is always written, and utm sub-fields resolving to `undefined` remain
inside it (they disappear only when the cache client JSON-serializes the
object, outside this script). -/
theorem c9_no_null_top_level_amended (pg : NPage) :
    (∀ kv ∈ dataToStore pg, kv.2.isSome = true)
    ∧ (∀ k : String, (rawRecord pg).lookup k = some none → (dataToStore pg).lookup k = none)
    ∧ (∀ kv ∈ dataToStore pg, kv ∈ rawRecord pg)
    ∧ ("utm", some (JVal.utm (utmSource pg) (utmCampaign pg) (utmMedium pg))) ∈ dataToStore pg := by
  refine ⟨?_, ?_, ?_, ?_⟩
  · intro kv hkv
    have hkv2 : kv ∈ (rawRecord pg).filter (fun kv => kv.2.isSome) := hkv
    have hp := List.of_mem_filter hkv2
    simpa using hp
  · intro k hk
    have h := lookup_filterIsSome (rawRecord pg) k (by rw [rawRecord_keys]; decide)
    rw [hk] at h
    exact h
  · intro kv hkv
    have hkv2 : kv ∈ (rawRecord pg).filter (fun kv => kv.2.isSome) := hkv
    exact List.mem_of_mem_filter hkv2
  · have hmem : ("utm", some (JVal.utm (utmSource pg) (utmCampaign pg) (utmMedium pg)))
        ∈ rawRecord pg := by
      simp [rawRecord]
    exact List.mem_filter.mpr ⟨hmem, rfl⟩

/-- Witness for C9: on a concrete page the absent description is omitted from
the stored record, and every stored field is non-null. -/
theorem c9_witness :
    (dataToStore c9Page).lookup "description" = none
    ∧ ("utm", some (JVal.utm none none none)) ∈ dataToStore c9Page := by
  constructor
  · exact (c9_no_null_top_level_amended c9Page).2.1 "description" (by decide)
  · have h := (c9_no_null_top_level_amended c9Page).2.2.2
    simpa using h

/-- The cache key of a page (`campaign:` + derived slug). -/
def pageKey (pg : NPage) : String :=
  campaignKey ((slugOf pg).getD "")

lemma processPage_ops_eq (pg : NPage) (hq : qualifies pg = true) :
    (processPage pg).1 = hdelOps pg ++ [CacheOp.hset (pageKey pg) (dataToStore pg)] := by
  simp [processPage, hq, pageKey]

lemma applyOps_hdelOps_other_key (pg : NPage) (delOk : String → String → Bool)
    (st : CacheState) (k2 f2 : String) (h : k2 ≠ pageKey pg) :
    applyOps delOk st (hdelOps pg) k2 f2 = st k2 f2 := by
  have hstep : ∀ (st' : CacheState) (f : String),
      applyOp delOk st' (CacheOp.hdel (campaignKey ((slugOf pg).getD "")) f) k2 f2 = st' k2 f2 := by
    intro st' f
    apply applyOp_other_key
    · intro k f' he
      injection he with h1 _
      rw [← h1]
      exact h
    · intro k r he
      cases he
  by_cases h1 : truthyS (imageUrlResolved pg) = true <;>
    by_cases h2 : truthyS (videoUrlResolved pg) = true <;>
      by_cases h3 : filesNonEmptyTruthy (filesResolved pg) = true <;>
        simp [hdelOps, h1, h2, h3, applyOps, hstep]

lemma hdelOps_clears_imageUrl (pg : NPage) (st : CacheState)
    (him : truthyS (imageUrlResolved pg) = false) :
    applyOps (fun _ _ => true) st (hdelOps pg) (pageKey pg) "imageUrl" = none := by
  have hhit : ∀ st' : CacheState,
      applyOp (fun _ _ => true) st'
        (CacheOp.hdel (campaignKey ((slugOf pg).getD "")) "imageUrl") (pageKey pg) "imageUrl"
      = none := fun st' => applyOp_hdel_hit _ st' _ _ rfl
  have hpres : ∀ (st' : CacheState) (f : String), f ≠ "imageUrl" →
      applyOp (fun _ _ => true) st'
        (CacheOp.hdel (campaignKey ((slugOf pg).getD "")) f) (pageKey pg) "imageUrl"
      = st' (pageKey pg) "imageUrl" := by
    intro st' f hf
    exact applyOp_hdel_other_field _ st' _ f _ _ (Ne.symm hf)
  by_cases h2 : truthyS (videoUrlResolved pg) = true <;>
    by_cases h3 : filesNonEmptyTruthy (filesResolved pg) = true <;>
      simp [hdelOps, him, h2, h3, applyOps, hhit, hpres]

lemma hdelOps_clears_videoUrl (pg : NPage) (st : CacheState)
    (hvm : truthyS (videoUrlResolved pg) = false) :
    applyOps (fun _ _ => true) st (hdelOps pg) (pageKey pg) "videoUrl" = none := by
  have hhit : ∀ st' : CacheState,
      applyOp (fun _ _ => true) st'
        (CacheOp.hdel (campaignKey ((slugOf pg).getD "")) "videoUrl") (pageKey pg) "videoUrl"
      = none := fun st' => applyOp_hdel_hit _ st' _ _ rfl
  have hpres : ∀ (st' : CacheState) (f : String), f ≠ "videoUrl" →
      applyOp (fun _ _ => true) st'
        (CacheOp.hdel (campaignKey ((slugOf pg).getD "")) f) (pageKey pg) "videoUrl"
      = st' (pageKey pg) "videoUrl" := by
    intro st' f hf
    exact applyOp_hdel_other_field _ st' _ f _ _ (Ne.symm hf)
  by_cases h1 : truthyS (imageUrlResolved pg) = true <;>
    by_cases h3 : filesNonEmptyTruthy (filesResolved pg) = true <;>
      simp [hdelOps, hvm, h1, h3, applyOps, hhit, hpres]

lemma hdelOps_clears_files (pg : NPage) (st : CacheState)
    (hfm : filesNonEmptyTruthy (filesResolved pg) = false) :
    applyOps (fun _ _ => true) st (hdelOps pg) (pageKey pg) "files" = none := by
  have hhit : ∀ st' : CacheState,
      applyOp (fun _ _ => true) st'
        (CacheOp.hdel (campaignKey ((slugOf pg).getD "")) "files") (pageKey pg) "files"
      = none := fun st' => applyOp_hdel_hit _ st' _ _ rfl
  have hpres : ∀ (st' : CacheState) (f : String), f ≠ "files" →
      applyOp (fun _ _ => true) st'
        (CacheOp.hdel (campaignKey ((slugOf pg).getD "")) f) (pageKey pg) "files"
      = st' (pageKey pg) "files" := by
    intro st' f hf
    exact applyOp_hdel_other_field _ st' _ f _ _ (Ne.symm hf)
  by_cases h1 : truthyS (imageUrlResolved pg) = true <;>
    by_cases h2 : truthyS (videoUrlResolved pg) = true <;>
      simp [hdelOps, hfm, h1, h2, applyOps, hhit, hpres]

/-- C6: for a qualifying page the pass emits the conditional stale-field
deletions followed by exactly one batched `hset`; an absent resolved image
url, absent resolved video url, or absent-or-empty consolidated list each
force the corresponding `hdel`; the `files` field is stored as a JSON string;
whatever deletions fail, the batched write still lands every present field
and other cache keys are untouched; and when the deletions succeed, the final
cache value of each of the three media fields equals the freshly resolved
value for any prior cache contents — no stale value survives. -/
theorem c6_stale_media_cleanup (pg : NPage) (hq : qualifies pg = true) :
    ((processPage pg).1 = hdelOps pg ++ [CacheOp.hset (pageKey pg) (dataToStore pg)])
    ∧ (imageUrlResolved pg = none →
        CacheOp.hdel (pageKey pg) "imageUrl" ∈ (processPage pg).1)
    ∧ (videoUrlResolved pg = none →
        CacheOp.hdel (pageKey pg) "videoUrl" ∈ (processPage pg).1)
    ∧ (filesResolved pg = none ∨ filesResolved pg = some [] →
        CacheOp.hdel (pageKey pg) "files" ∈ (processPage pg).1)
    ∧ ((dataToStore pg).lookup "files"
        = (filesResolved pg).map (fun l => some (JVal.str (filesJson l))))
    ∧ (∀ (delOk : String → String → Bool) (st : CacheState) (f : String) (v : Option JVal),
        (dataToStore pg).lookup f = some v →
        applyOps delOk st (processPage pg).1 (pageKey pg) f = v)
    ∧ (∀ (delOk : String → String → Bool) (st : CacheState) (k2 f2 : String),
        k2 ≠ pageKey pg → applyOps delOk st (processPage pg).1 k2 f2 = st k2 f2)
    ∧ (∀ st : CacheState,
        applyOps (fun _ _ => true) st (processPage pg).1 (pageKey pg) "imageUrl"
            = (imageUrlResolved pg).map JVal.str
        ∧ applyOps (fun _ _ => true) st (processPage pg).1 (pageKey pg) "videoUrl"
            = (videoUrlResolved pg).map JVal.str
        ∧ applyOps (fun _ _ => true) st (processPage pg).1 (pageKey pg) "files"
            = (filesResolved pg).map (fun l => JVal.str (filesJson l))) := by
  have hops := processPage_ops_eq pg hq
  refine ⟨hops, ?_, ?_, ?_, dataToStore_lookup_files pg, ?_, ?_, ?_⟩
  · intro him
    have ht : truthyS (imageUrlResolved pg) = false := by rw [him]; rfl
    rw [hops]
    simp [hdelOps, ht, pageKey]
  · intro hvm
    have ht : truthyS (videoUrlResolved pg) = false := by rw [hvm]; rfl
    rw [hops]
    simp [hdelOps, ht, pageKey]
  · intro hfm
    have ht : filesNonEmptyTruthy (filesResolved pg) = false := by
      rcases hfm with h | h <;> rw [h] <;> rfl
    rw [hops]
    simp [hdelOps, ht, pageKey]
  · intro delOk st f v hf
    rw [hops, applyOps_append]
    show applyOp delOk (applyOps delOk st (hdelOps pg))
      (CacheOp.hset (pageKey pg) (dataToStore pg)) (pageKey pg) f = v
    rw [applyOp_hset_at, hf]
  · intro delOk st k2 f2 hk2
    rw [hops, applyOps_append]
    have hsetpres : applyOp delOk (applyOps delOk st (hdelOps pg))
        (CacheOp.hset (pageKey pg) (dataToStore pg)) k2 f2
        = applyOps delOk st (hdelOps pg) k2 f2 := by
      apply applyOp_other_key
      · intro k f he
        cases he
      · intro k r he
        injection he with h1 _
        rw [← h1]
        exact hk2
    show applyOp delOk (applyOps delOk st (hdelOps pg))
      (CacheOp.hset (pageKey pg) (dataToStore pg)) k2 f2 = st k2 f2
    rw [hsetpres]
    exact applyOps_hdelOps_other_key pg delOk st k2 f2 hk2
  · intro st
    have hrw : ∀ f : String,
        applyOps (fun _ _ => true) st (processPage pg).1 (pageKey pg) f
          = match (dataToStore pg).lookup f with
            | some v => v
            | none => applyOps (fun _ _ => true) st (hdelOps pg) (pageKey pg) f := by
      intro f
      rw [hops, applyOps_append]
      show applyOp (fun _ _ => true) (applyOps (fun _ _ => true) st (hdelOps pg))
        (CacheOp.hset (pageKey pg) (dataToStore pg)) (pageKey pg) f = _
      rw [applyOp_hset_at]
    refine ⟨?_, ?_, ?_⟩
    · rw [hrw "imageUrl", dataToStore_lookup_imageUrl]
      cases him : imageUrlResolved pg with
      | none =>
        exact hdelOps_clears_imageUrl pg st (by rw [him]; rfl)
      | some v => rfl
    · rw [hrw "videoUrl", dataToStore_lookup_videoUrl]
      cases hvm : videoUrlResolved pg with
      | none =>
        exact hdelOps_clears_videoUrl pg st (by rw [hvm]; rfl)
      | some v => rfl
    · rw [hrw "files", dataToStore_lookup_files]
      cases hfm : filesResolved pg with
      | none =>
        exact hdelOps_clears_files pg st (by rw [hfm]; rfl)
      | some l => rfl

/-- A qualifying page with no media at all (image previously synced, now
removed upstream). -/
def c6Page : NPage :=
  ⟨"page-6", none, none,
   [("Slug", NProp.richText [some "promo6"]),
    ("Destination", NProp.richText [some "https://d6.example"])]⟩

/-- A prior cache state carrying a stale image url for the page's key. -/
def c6Prior : CacheState :=
  fun k f =>
    if k == "campaign:promo6" && f == "imageUrl" then
      some (JVal.str "https://old.example/stale.png")
    else none

/-- Witness for C6: re-syncing the page with its image removed deletes the
stale `imageUrl` from the cache, and an unrelated key is untouched. -/
theorem c6_witness :
    qualifies c6Page = true
    ∧ applyOps (fun _ _ => true) c6Prior (processPage c6Page).1 (pageKey c6Page) "imageUrl" = none
    ∧ applyOps (fun _ _ => true) c6Prior (processPage c6Page).1 "campaign:other" "imageUrl"
        = c6Prior "campaign:other" "imageUrl" := by
  have h := c6_stale_media_cleanup c6Page (by decide)
  refine ⟨by decide, ?_, ?_⟩
  · have h5 := (h.2.2.2.2.2.2.2 c6Prior).1
    rw [h5]
    decide
  · exact h.2.2.2.2.2.2.1 (fun _ _ => true) c6Prior "campaign:other" "imageUrl" (by decide)

end Sync
